import Mathlib

/-!
Verification of the name-resolution and disambiguation engine of
scripts/rename_session_windows.py (tmux-window-name).

The Python source is shallowly embedded: strings are Lean `String`s
(sequences of characters, matching Python's character-level slicing and
splitting), the process snapshot is a list of structured records (one per
line of `ps -a -oppid,command`, already split on whitespace), and fallible
code returns `Except`.  Regular-expression substitution is modelled for the
pattern shapes that actually occur in the verified claims: the anchored
`USR_BIN_REMOVER` pattern is embedded exactly, and generic substitution
rules are modelled for metacharacter-free (literal) patterns as
replace-all of non-overlapping occurrences.
-/

/-- Splits a character list on a separator character, keeping empty
segments, mirroring Python str.split(sep) for a one-character separator.
The accumulator holds the current segment reversed. -/
def splitCharAux (sep : Char) : List Char → List Char → List (List Char)
  | [], acc => [acc.reverse]
  | c :: cs, acc =>
    if c = sep then acc.reverse :: splitCharAux sep cs []
    else splitCharAux sep cs (c :: acc)

/-- Embeds Python str.split() with no argument (whitespace split discarding
empty fields); modelled for space-separated text, which is the shape of
every string split this way in the source. -/
def pySplit (s : String) : List String :=
  ((splitCharAux ' ' s.data []).filter (fun seg => !seg.isEmpty)).map String.mk

/-- Embeds pathlib Path(s).name for POSIX paths: the final path component,
with empty components and single-dot components normalized away; the empty
string when no component remains (for example for the filesystem root). -/
def pathName (s : String) : String :=
  String.mk (((splitCharAux '/' s.data []).filter
    (fun seg => !seg.isEmpty && seg != ['.'])).getLastD [])

/-- Tests whether one character list occurs contiguously inside another. -/
def listIsInfix (needle : List Char) : List Char → Bool
  | [] => needle.isEmpty
  | c :: cs => needle.isPrefixOf (c :: cs) || listIsInfix needle cs

/-- Embeds the Python substring test `needle in s`. -/
def strContains (needle s : String) : Bool :=
  listIsInfix needle.data s.data

/-- Embeds USR_BIN_REMOVER = (r^(/usr)?/bin/(.+), \g<2>) applied by re.sub
in get_current_program: the anchored pattern matches exactly when the name
starts with /usr/bin/ or /bin/ followed by at least one character, and the
replacement keeps the remainder; otherwise the name is unchanged. -/
def stripUsrBin (name : String) : String :=
  if "/usr/bin/".data.isPrefixOf name.data && decide (9 < name.data.length) then
    String.mk (name.data.drop 9)
  else if "/bin/".data.isPrefixOf name.data && decide (5 < name.data.length) then
    String.mk (name.data.drop 5)
  else name

/-- Embeds the IconStyle enum. -/
inductive IconStyle where
  | name
  | icon
  | name_and_icon
deriving DecidableEq, Repr

/-- Embeds DEFAULT_PROGRAM_ICONS (nerd-font glyphs, stored decoded). -/
def DEFAULT_PROGRAM_ICONS : List (String × String) :=
  [("nvim", ""), ("vim", ""), ("vi", ""), ("git", ""),
   ("python", ""), ("node", ""), ("npm", ""), ("yarn", ""),
   ("docker", ""), ("kubectl", ""), ("go", ""), ("rust", ""),
   ("cargo", ""), ("php", ""), ("ruby", ""), ("java", ""),
   ("mvn", ""), ("gradle", ""), ("bash", ""), ("zsh", ""),
   ("fish", ""), ("sh", "")]

/-- Embeds the default substitute_sets list of the Options dataclass (kept
as data; the rules contain regular expressions and are not evaluated by any
claim below). -/
def defaultSubstituteSets : List (String × String) :=
  [(".+ipython([32])", "ipython\\g<1>"),
   ("^(/usr)?/bin/(.+)", "\\g<2>"),
   ("^/run/current-system/sw/bin/(.+)", "\\g<1>"),
   ("^/home/[a-zA-Z]*/.nix-profile/bin/(.+)", "\\g<1>"),
   ("^/nix/store/[^/]+/.nix-profile/bin/(.+)", "\\g<1>"),
   ("(bash) (.+)/(.+[ $])(.+)", "\\g<3>\\g<4>"),
   (".+poetry shell", "poetry")]

/-- Embeds the Options dataclass with its default field values.  The
custom_icons dict is an association list with unique keys. -/
structure Options where
  shells : List String := ["bash", "fish", "sh", "zsh"]
  dir_programs : List String := ["nvim", "vim", "vi", "git"]
  ignored_programs : List String := []
  max_name_len : Nat := 20
  use_tilde : Bool := false
  icon_style : IconStyle := IconStyle.name
  custom_icons : List (String × String) := []
  substitute_sets : List (String × String) := defaultSubstituteSets
  dir_substitute_sets : List (String × String) := []
  show_program_args : Bool := true

/-- Embeds Python dict.get on an association list with unique keys. -/
def lookupIcon (table : List (String × String)) (k : String) : Option String :=
  (table.find? (fun e => e.1 == k)).map (fun e => e.2)

/-- Embeds get_program_icon: base name is the first whitespace token with
any path components removed and any colon-suffix removed; custom icons are
consulted first, falling through to the built-in table when the custom
table has no entry or an empty one (Python `or`).  The unicode-escape
decoding step applies to custom icons written as backslash-u text; icons
here are stored decoded, so that step is the identity. -/
def get_program_icon (program_name : String) (options : Options) : String :=
  match pySplit program_name with
  | [] => ""
  | t :: _ =>
    let base0 := (splitCharAux '/' t.data []).getLastD []
    let base_name :=
      if base0.contains ':' then String.mk ((splitCharAux ':' base0 []).headD base0)
      else String.mk base0
    match lookupIcon options.custom_icons base_name with
    | some i => if i != "" then i else (lookupIcon DEFAULT_PROGRAM_ICONS base_name).getD ""
    | none => (lookupIcon DEFAULT_PROGRAM_ICONS base_name).getD ""

/-- Embeds apply_icon_if_in_style. -/
def apply_icon_if_in_style (name : String) (options : Options) : String :=
  if options.icon_style = IconStyle.icon ∨ options.icon_style = IconStyle.name_and_icon then
    let icon := get_program_icon name options
    if icon ≠ "" then
      if options.icon_style = IconStyle.icon then icon
      else if options.icon_style = IconStyle.name_and_icon then icon ++ " " ++ name
      else name
    else name
  else name

/-- Embeds the name computation of rename_window: apply the icon style,
then cut to max_name_len characters (Python window_name[:max_name_len]).
The tmux rename command itself is the collaborator boundary. -/
def rename_window_name (window_name : String) (max_name_len : Nat) (options : Options) : String :=
  let window_name := apply_icon_if_in_style window_name options
  String.mk (window_name.data.take max_name_len)

/-- Embeds parse_shell_command.  The empty-list case is unreachable from
get_current_program, which always passes the nonempty token list of a
matched command (Python would raise IndexError there). -/
def parse_shell_command (shell_cmd : List String) : Option String :=
  match shell_cmd with
  | [] => none
  | [_] => none
  | _ :: arg1 :: rest => some (String.intercalate " " (pathName arg1 :: rest))

/-- Embeds one data line of `ps -a -oppid,command`, already split on
whitespace: ppid is the first column, cmd the remaining tokens. -/
structure ProcessRecord where
  ppid : Nat
  cmd : List String
deriving DecidableEq, Repr

/-- Embeds the fields of a tmux pane consumed by the engine. -/
structure PaneInfo where
  window_id : String
  pane_pid : Option Nat
  pane_current_path : String
deriving DecidableEq, Repr

/-- Embeds the Pane dataclass imported from path_utils: a pane together
with its resolved program (None when no program was found or it was
filtered out). -/
structure Pane where
  info : PaneInfo
  program : Option String
deriving DecidableEq, Repr

/-- Token identifying the engine's own invocation in a command line. -/
def SCRIPT_TOKEN : String := "scripts/rename_session_windows.py"

/-- Embeds the self-exclusion test of get_current_program on the second
command token. -/
def tokenIsScript (tok : String) : Bool :=
  strContains SCRIPT_TOKEN tok

/-- Embeds the search loop of get_current_program over the process
snapshot, for a known pane pid.  A matched record with an empty command
token list would raise IndexError in Python (program[0] on an empty list);
real ps output always carries a command, so this case is marked as the
distinct error it would raise. -/
def gcpLoop (running : List ProcessRecord) (pid : Nat) (options : Options) :
    Except String (Option String) :=
  match running with
  | [] => Except.ok none
  | r :: rest =>
    if r.ppid = pid then
      match r.cmd with
      | [] => Except.error "IndexError"
      | c0 :: cs =>
        let program_name_stripped := stripUsrBin c0
        if (match cs with | c1 :: _ => tokenIsScript c1 | [] => false) then
          gcpLoop rest pid options
        else if options.ignored_programs.contains program_name_stripped then
          gcpLoop rest pid options
        else if options.shells.contains program_name_stripped then
          Except.ok (parse_shell_command (c0 :: cs))
        else if !options.show_program_args then
          Except.ok (some c0)
        else
          Except.ok (some (String.intercalate " " (c0 :: cs)))
    else gcpLoop rest pid options

/-- Embeds get_current_program: raises ValueError when the pane pid is
absent, otherwise scans the snapshot for the first record whose ppid
equals the pane pid and applies the filtering rules; no match falls
through to None. -/
def get_current_program (running_programs : List ProcessRecord) (pane : PaneInfo)
    (options : Options) : Except String (Option String) :=
  match pane.pane_pid with
  | none => Except.error "ValueError: Pane id is none"
  | some pid => gcpLoop running_programs pid options

/-- Embeds the list construction of get_panes_programs: one Pane per
active pane, aborting on the first exception from get_current_program.
The ps read and its CalledProcessError fallback to an empty snapshot are
the collaborator boundary; the snapshot list is a parameter here. -/
def get_panes_programs (running_programs : List ProcessRecord) (panes : List PaneInfo)
    (options : Options) : Except String (List Pane) :=
  match panes with
  | [] => Except.ok []
  | p :: ps =>
    match get_current_program running_programs p options with
    | Except.error e => Except.error e
    | Except.ok prog =>
      match get_panes_programs running_programs ps options with
      | Except.error e => Except.error e
      | Except.ok rest => Except.ok (Pane.mk p prog :: rest)

/-- Replaces, scanning left to right, every non-overlapping occurrence of
a nonempty literal pattern.  The fuel argument only bounds the recursion;
each step consumes at least one character, so any fuel of at least the
input length plus one is never exhausted. -/
def replaceAllAux (pat repl : List Char) : Nat → List Char → List Char
  | 0, s => s
  | _ + 1, [] => []
  | fuel + 1, c :: cs =>
    if pat.isPrefixOf (c :: cs) && !pat.isEmpty then
      repl ++ replaceAllAux pat repl fuel (cs.drop (pat.length - 1))
    else
      c :: replaceAllAux pat repl fuel cs

/-- Embeds re.sub(pattern, replacement, name) for patterns without
regular-expression metacharacters: every non-overlapping occurrence of the
literal pattern is replaced, scanning left to right.  Every substitution
rule evaluated by a claim below is literal. -/
def applyRule (pattern replacement name : String) : String :=
  String.mk (replaceAllAux pattern.data replacement.data (name.data.length + 1) name.data)

/-- Embeds substitute_name: each (pattern, replacement) rule is applied in
list order, each rule rewriting the previous rule's output. -/
def substitute_name (name : String) (substitute_sets : List (String × String)) : String :=
  substitute_sets.foldl (fun n rule => applyRule rule.1 rule.2 n) name

/-- Embeds get_program_if_dir.  The empty-token case is unreachable from
rename_windows, whose program strings always have a first token (Python
would raise IndexError there). -/
def get_program_if_dir (program_line : String) (dir_programs : List String) : Option String :=
  match pySplit program_line with
  | [] => none
  | t :: ts =>
    if dir_programs.contains t then some (String.intercalate " " (t :: ts)) else none

/-- Embeds fix_pane_path, with the HOME_DIR environment value passed in as
a parameter; the pane path is a plain string here, so the Python
None-path early return has no counterpart. -/
def fix_pane_path (home_dir : String) (pane : Pane) (options : Options) : Pane :=
  if options.use_tilde then
    { pane with info :=
        { pane.info with pane_current_path := pane.info.pane_current_path.replace home_dir "~" } }
  else pane

/-- Modelled from the spec: the source imports get_exclusive_paths from
path_utils, a module not present under src/.  Section 4.3: the segments of
a working-directory path (separator slash, empty components dropped). -/
def pathSegments (p : String) : List (List Char) :=
  (splitCharAux '/' p.data []).filter (fun seg => !seg.isEmpty)

/-- Modelled from the spec: joins path segments with slashes. -/
def joinSlash : List (List Char) → List Char
  | [] => []
  | [s] => s
  | s :: rest => s ++ '/' :: joinSlash rest

/-- Modelled from the spec: the suffix of a path made of its last k
segments, accumulated parent/.../leaf as section 4.3 walks upward. -/
def suffixK (p : String) (k : Nat) : String :=
  String.mk (joinSlash ((pathSegments p).drop ((pathSegments p).length - k)))

/-- Modelled from the spec: whether the k-segment suffix of path p occurs
exactly once among the given working-directory paths (p itself included in
the count), i.e. p no longer collides with any other pane at depth k. -/
def uniqueAt (paths : List String) (p : String) (k : Nat) : Bool :=
  paths.countP (fun q => suffixK q k == suffixK p k) == 1

/-- Modelled from the spec, section 4.3: the display path of one pane is
the shortest accumulated suffix that no longer collides with any other
pane's suffix of the same depth; when the ancestry is exhausted before
becoming unique the full available path is kept (degraded, duplicates
accepted).  Collisions can only happen inside the group sharing a leaf
segment, so searching over all paths realizes the leaf-group walk. -/
def displaySuffix (paths : List String) (p : String) : String :=
  match (List.range' 1 (pathSegments p).length).find? (uniqueAt paths p) with
  | some k => suffixK p k
  | none => p

/-- Modelled from the spec: get_exclusive_paths maps each pane of the
unresolved subset to its display path, preserving the pane list
one-to-one (section 4.3, Output). -/
def get_exclusive_paths (panes : List Pane) : List (Pane × String) :=
  panes.map (fun p =>
    (p, displaySuffix (panes.map (fun q => q.info.pane_current_path)) p.info.pane_current_path))

/-- Tags which of the two label-producing code paths of rename_windows
emitted a label: the program loop or the exclusive-paths loop. -/
inductive LabelSource where
  | fromProgram
  | fromDir
deriving DecidableEq, Repr

/-- Embeds the first loop of rename_windows over panes_with_programs, with
every window enabled (the per-window enabled option is tmux state): panes
whose program is a dir program are handed to the directory path, with the
program rewritten to the rejoined token form; every other pane's program
is substituted and becomes a window label.  The none case is unreachable:
the caller filters for panes with a program. -/
def processProgramPanes (options : Options) : List Pane → List (String × String) × List Pane
  | [] => ([], [])
  | p :: rest =>
    let acc := processProgramPanes options rest
    match p.program with
    | none => acc
    | some prog =>
      match get_program_if_dir prog options.dir_programs with
      | some program_name => (acc.1, { p with program := some program_name } :: acc.2)
      | none =>
        ((p.info.window_id,
          rename_window_name (substitute_name prog options.substitute_sets)
            options.max_name_len options) :: acc.1, acc.2)

/-- Embeds the label production of rename_windows as a pure function from
the resolved panes to the list of (window id, final label, producing code
path) triples, with every window enabled; writing the labels to tmux is
the collaborator boundary. -/
def rename_windows_pure (home_dir : String) (panes : List Pane) (options : Options) :
    List (String × String × LabelSource) :=
  let panes_programs := panes.map (fun p => fix_pane_path home_dir p options)
  let panes_with_programs := panes_programs.filter (fun p => p.program.isSome)
  let panes_with_dir := panes_programs.filter (fun p => p.program.isNone)
  let step := processProgramPanes options panes_with_programs
  let exclusive_paths := get_exclusive_paths (panes_with_dir ++ step.2)
  step.1.map (fun e => (e.1, e.2, LabelSource.fromProgram)) ++
    exclusive_paths.map (fun e =>
      let display_path := substitute_name e.2 options.dir_substitute_sets
      let display_path :=
        match e.1.program with
        | some prog => substitute_name prog options.substitute_sets ++ ":" ++ display_path
        | none => display_path
      (e.1.info.window_id,
       rename_window_name display_path options.max_name_len options,
       LabelSource.fromDir))

/-- Modelled from the spec, for comparison with the code (claim C5): the
PROFILE_REMOVER family, a name of the shape /home/ then a run of ASCII
letters then /.nix-profile/bin/ then a nonempty remainder (the pattern's
unescaped dot is modelled as the literal dot it is meant to match). -/
def stripProfileChars (name : List Char) : Option (List Char) :=
  if "/home/".data.isPrefixOf name then
    let rest := (name.drop 6).drop ((name.drop 6).takeWhile (fun c => c.isAlpha)).length
    if "/.nix-profile/bin/".data.isPrefixOf rest && decide (18 < rest.length) then
      some (rest.drop 18)
    else none
  else none

/-- Modelled from the spec, for comparison with the code (claim C5): the
NIX_STORE_REMOVER family, a name of the shape /nix/store/ then a nonempty
slash-free component then /.nix-profile/bin/ then a nonempty remainder. -/
def stripNixStoreChars (name : List Char) : Option (List Char) :=
  if "/nix/store/".data.isPrefixOf name then
    let comp := (name.drop 11).takeWhile (fun c => c ≠ '/')
    if comp.isEmpty then none
    else
      let rest := (name.drop 11).drop comp.length
      if "/.nix-profile/bin/".data.isPrefixOf rest && decide (18 < rest.length) then
        some (rest.drop 18)
      else none
  else none

/-- Modelled from the spec, section 4.1 rule 2, the behaviour claim C5
asserts of the code: a bare name obtained by stripping a leading
interpreter path prefix of any of the four forms /bin/, /usr/bin/,
current-system profile, or Nix profile.  This is the comparison
definition; the code under test is stripUsrBin, which get_current_program
actually applies. -/
def spec_strip_interpreter (name : String) : String :=
  if "/usr/bin/".data.isPrefixOf name.data && decide (9 < name.data.length) then
    String.mk (name.data.drop 9)
  else if "/bin/".data.isPrefixOf name.data && decide (5 < name.data.length) then
    String.mk (name.data.drop 5)
  else if "/run/current-system/sw/bin/".data.isPrefixOf name.data
      && decide (27 < name.data.length) then
    String.mk (name.data.drop 27)
  else
    match stripProfileChars name.data with
    | some r => String.mk r
    | none =>
      match stripNixStoreChars name.data with
      | some r => String.mk r
      | none => name

/-- Helper: the snapshot scan of get_current_program never produces an
error when every record carries at least one command token. -/
theorem gcpLoop_ok_of_wf (pid : Nat) (options : Options) :
    ∀ l : List ProcessRecord, (∀ r ∈ l, r.cmd ≠ []) →
    ∃ v, gcpLoop l pid options = Except.ok v := by
  intro l
  induction l with
  | nil => intro _; exact ⟨none, rfl⟩
  | cons r rest ih =>
    intro h
    obtain ⟨v, hv⟩ := ih (fun x hx => h x (List.mem_cons_of_mem _ hx))
    simp only [gcpLoop]
    by_cases hp : r.ppid = pid
    · rw [if_pos hp]
      split
      · rename_i heq
        exact absurd heq (h r (List.mem_cons_self r rest))
      · split
        · exact ⟨v, hv⟩
        · split
          · exact ⟨v, hv⟩
          · split
            · exact ⟨_, rfl⟩
            · split
              · exact ⟨_, rfl⟩
              · exact ⟨_, rfl⟩
    · rw [if_neg hp]
      exact ⟨v, hv⟩

/-- C9: get_current_program raises ValueError for a pane whose pid is
absent, before and regardless of the snapshot; and for a pane with a pid,
over any snapshot of well-formed records (each line of ps output carries a
command), it never raises. -/
theorem claim9_raise_only_on_missing_pid (w d : String) (running : List ProcessRecord)
    (options : Options) :
    (get_current_program running (PaneInfo.mk w none d) options
      = Except.error "ValueError: Pane id is none")
    ∧ (∀ (pane : PaneInfo) (pid : Nat), pane.pane_pid = some pid →
        (∀ r ∈ running, r.cmd ≠ []) →
        ∃ v, get_current_program running pane options = Except.ok v) := by
  constructor
  · rfl
  · intro pane pid hpid h
    obtain ⟨v, hv⟩ := gcpLoop_ok_of_wf pid options running h
    exact ⟨v, by simp only [get_current_program, hpid]; exact hv⟩

/-- C9 witness: the concrete ValueError and non-error cases. -/
theorem claim9_witness :
    get_current_program [ProcessRecord.mk 1 ["top"]] (PaneInfo.mk "@5" none "/") ({} : Options)
      = Except.error "ValueError: Pane id is none"
    ∧ get_current_program [ProcessRecord.mk 1 ["top"]] (PaneInfo.mk "@5" (some 1) "/")
        ({} : Options) = Except.ok (some "top") := by
  obtain ⟨h1, h2⟩ := claim9_raise_only_on_missing_pid "@5" "/" [ProcessRecord.mk 1 ["top"]] {}
  obtain ⟨v, hv⟩ := h2 (PaneInfo.mk "@5" (some 1) "/") 1 rfl (by decide)
  exact ⟨h1, by rfl⟩

/-- C1 counterexample: a pane whose pid (5) matches no snapshot record
makes get_current_program return None, not an error — the claim asserts a
resolution failure is signalled here. -/
theorem claim1_counterexample :
    get_current_program [ProcessRecord.mk 3 ["vim"]] (PaneInfo.mk "@1" (some 5) "/home/u")
      ({} : Options) = Except.ok none := by rfl

/-- C1 (amended): a pane pid matching no record in the snapshot yields
None, exactly like the identifiable cases; a resolution failure is raised
only when the pane's pid is itself absent. -/
theorem claim1_no_match_yields_none (running : List ProcessRecord) (pane : PaneInfo) (pid : Nat)
    (options : Options) (hpid : pane.pane_pid = some pid)
    (hnone : ∀ r ∈ running, r.ppid ≠ pid) :
    get_current_program running pane options = Except.ok none := by
  have aux : ∀ l : List ProcessRecord, (∀ r ∈ l, r.ppid ≠ pid) →
      gcpLoop l pid options = Except.ok none := by
    intro l
    induction l with
    | nil => intro _; rfl
    | cons r rest ih =>
      intro h
      simp only [gcpLoop]
      rw [if_neg (h r (List.mem_cons_self r rest))]
      exact ih (fun x hx => h x (List.mem_cons_of_mem _ hx))
  simp only [get_current_program, hpid]
  exact aux running hnone

/-- C1 witness: a concrete unmatched pid resolved to None. -/
theorem claim1_witness :
    get_current_program [ProcessRecord.mk 3 ["emacs"]] (PaneInfo.mk "@9" (some 9) "/tmp")
      ({} : Options) = Except.ok none :=
  claim1_no_match_yields_none [ProcessRecord.mk 3 ["emacs"]] (PaneInfo.mk "@9" (some 9) "/tmp")
    9 {} rfl (by decide)

/-- C3: the substitution pipeline rewrites cumulatively in rule order with
no short-circuit (splitting the rule list anywhere composes), and it is
order-sensitive: [(alpha to beta), (beta to gamma)] sends alpha to gamma,
while the reversed list sends alpha only to beta. -/
theorem claim3_substitution_pipeline :
    (∀ (name : String) (rule : String × String) (rules : List (String × String)),
      substitute_name name (rule :: rules)
        = substitute_name (applyRule rule.1 rule.2 name) rules)
    ∧ (∀ (name : String) (rules₁ rules₂ : List (String × String)),
      substitute_name name (rules₁ ++ rules₂)
        = substitute_name (substitute_name name rules₁) rules₂)
    ∧ substitute_name "alpha" [("alpha", "beta"), ("beta", "gamma")] = "gamma"
    ∧ substitute_name "alpha" [("beta", "gamma"), ("alpha", "beta")] = "beta" := by
  refine ⟨fun name rule rules => rfl, fun name rules₁ rules₂ => ?_, by rfl, by rfl⟩
  simp [substitute_name, List.foldl_append]

/-- C5 counterexample: for the command /run/current-system/sw/bin/bash the
four-pattern stripping claimed by the spec yields the bare name bash,
which is in the default shell list, so the claim predicts bare-shell
handling (None); the code strips only the /bin//usr/bin pattern, leaves
the name unchanged, and returns the full command as a non-shell program. -/
theorem claim5_counterexample :
    spec_strip_interpreter "/run/current-system/sw/bin/bash" = "bash"
    ∧ stripUsrBin "/run/current-system/sw/bin/bash" = "/run/current-system/sw/bin/bash"
    ∧ ({} : Options).shells.contains "bash" = true
    ∧ get_current_program [ProcessRecord.mk 7 ["/run/current-system/sw/bin/bash"]]
        (PaneInfo.mk "@2" (some 7) "/") ({} : Options)
        = Except.ok (some "/run/current-system/sw/bin/bash")
    ∧ get_current_program [ProcessRecord.mk 7 ["bash"]]
        (PaneInfo.mk "@2" (some 7) "/") ({} : Options) = Except.ok none := by
  exact ⟨by rfl, by rfl, by rfl, by rfl, by rfl⟩

/-- C5 (amended): the bare name driving all three filtering decisions of
get_current_program (ignore list, shell list, fall-through) is the first
token stripped by the USR_BIN_REMOVER pattern alone — the Nix-profile and
current-system prefixes are not stripped at this stage. -/
theorem claim5_filter_uses_usr_bin_strip_only (pid : Nat) (w d c0 : String)
    (cs : List String) (options : Options)
    (hscript : (match cs with | c1 :: _ => tokenIsScript c1 | [] => false) = false) :
    (options.ignored_programs.contains (stripUsrBin c0) = true →
      get_current_program [ProcessRecord.mk pid (c0 :: cs)] (PaneInfo.mk w (some pid) d) options
        = Except.ok none)
    ∧ (options.ignored_programs.contains (stripUsrBin c0) = false →
       options.shells.contains (stripUsrBin c0) = true →
      get_current_program [ProcessRecord.mk pid (c0 :: cs)] (PaneInfo.mk w (some pid) d) options
        = Except.ok (parse_shell_command (c0 :: cs)))
    ∧ (options.ignored_programs.contains (stripUsrBin c0) = false →
       options.shells.contains (stripUsrBin c0) = false →
       options.show_program_args = true →
      get_current_program [ProcessRecord.mk pid (c0 :: cs)] (PaneInfo.mk w (some pid) d) options
        = Except.ok (some (String.intercalate " " (c0 :: cs)))) := by
  refine ⟨fun hign => ?_, fun hign hshell => ?_, fun hign hshell hargs => ?_⟩
  · simp only [get_current_program, gcpLoop, hscript, hign]
    simp
  · simp only [get_current_program, gcpLoop, hscript, hign, hshell]
    simp
  · simp only [get_current_program, gcpLoop, hscript, hign, hshell, hargs]
    simp

/-- C5 witness: /usr/bin/bash is stripped to bash for filtering, so the
default shell list catches it and the single-token shell resolves to
None. -/
theorem claim5_witness :
    get_current_program [ProcessRecord.mk 4 ["/usr/bin/bash"]] (PaneInfo.mk "@3" (some 4) "/")
      ({} : Options) = Except.ok (parse_shell_command ["/usr/bin/bash"]) :=
  (claim5_filter_uses_usr_bin_strip_only 4 "@3" "/" "/usr/bin/bash" [] {} rfl).2.1
    (by rfl) (by rfl)

/-- C6: an empty process snapshot never aborts — every pane with a pid
resolves to no program, so the whole pane list falls through to
directory-based labeling. -/
theorem claim6_empty_snapshot_degrades (panes : List PaneInfo) (options : Options)
    (h : ∀ p ∈ panes, p.pane_pid.isSome = true) :
    get_panes_programs [] panes options
      = Except.ok (panes.map (fun p => Pane.mk p none)) := by
  induction panes with
  | nil => rfl
  | cons p ps ih =>
    obtain ⟨pid, hpid⟩ := Option.isSome_iff_exists.mp (h p (List.mem_cons_self p ps))
    simp only [get_panes_programs, get_current_program, hpid]
    rw [ih (fun q hq => h q (List.mem_cons_of_mem _ hq))]
    simp [gcpLoop]

/-- C6 witness: two concrete panes under an empty snapshot. -/
theorem claim6_witness :
    get_panes_programs [] [PaneInfo.mk "@1" (some 2) "/a", PaneInfo.mk "@2" (some 3) "/b"]
      ({} : Options)
      = Except.ok [Pane.mk (PaneInfo.mk "@1" (some 2) "/a") none,
                   Pane.mk (PaneInfo.mk "@2" (some 3) "/b") none] :=
  claim6_empty_snapshot_degrades
    [PaneInfo.mk "@1" (some 2) "/a", PaneInfo.mk "@2" (some 3) "/b"] {} (by decide)

/-- C7: a matched command whose stripped first token is a configured shell
resolves to the basename of its second token joined with the remaining
tokens, and to None when the shell command is a single token. -/
theorem claim7_shell_parsing (pid : Nat) (w d c0 arg1 : String) (rest : List String)
    (options : Options)
    (hshell : options.shells.contains (stripUsrBin c0) = true)
    (hscript : tokenIsScript arg1 = false)
    (hign : options.ignored_programs.contains (stripUsrBin c0) = false) :
    get_current_program [ProcessRecord.mk pid (c0 :: arg1 :: rest)] (PaneInfo.mk w (some pid) d)
      options = Except.ok (some (String.intercalate " " (pathName arg1 :: rest)))
    ∧ get_current_program [ProcessRecord.mk pid [c0]] (PaneInfo.mk w (some pid) d) options
      = Except.ok none := by
  constructor
  · simp only [get_current_program, gcpLoop, hscript, hign, hshell]
    simp [parse_shell_command]
  · simp only [get_current_program, gcpLoop, hign, hshell]
    simp [parse_shell_command]

/-- C7 witness: a shell with a script argument and a bare shell. -/
theorem claim7_witness :
    get_current_program [ProcessRecord.mk 11 ["zsh", "/home/u/build.sh"]]
      (PaneInfo.mk "@4" (some 11) "/") ({} : Options) = Except.ok (some "build.sh")
    ∧ get_current_program [ProcessRecord.mk 11 ["zsh"]]
        (PaneInfo.mk "@4" (some 11) "/") ({} : Options) = Except.ok none := by
  have h := claim7_shell_parsing 11 "@4" "/" "zsh" "/home/u/build.sh" [] {}
    (by rfl) (by rfl) (by rfl)
  exact ⟨by rw [h.1]; rfl, h.2⟩

/-- C4: the composed label (after icon decoration) is cut to exactly
max_name_len characters when longer, and left unchanged when its length is
at most max_name_len. -/
theorem claim4_truncation (name : String) (max_name_len : Nat) (options : Options) :
    ((apply_icon_if_in_style name options).length ≤ max_name_len →
      rename_window_name name max_name_len options = apply_icon_if_in_style name options)
    ∧ (max_name_len ≤ (apply_icon_if_in_style name options).length →
      (rename_window_name name max_name_len options).length = max_name_len
      ∧ rename_window_name name max_name_len options
        = String.mk ((apply_icon_if_in_style name options).data.take max_name_len)) := by
  constructor
  · intro h
    have h2 : (apply_icon_if_in_style name options).data.length ≤ max_name_len := h
    show String.mk ((apply_icon_if_in_style name options).data.take max_name_len) = _
    rw [List.take_of_length_le h2]
  · intro h
    have h2 : max_name_len ≤ (apply_icon_if_in_style name options).data.length := h
    refine ⟨?_, rfl⟩
    show ((apply_icon_if_in_style name options).data.take max_name_len).length = max_name_len
    exact List.length_take_of_le h2

/-- C4 witness: a short label is unchanged; a 24-character label is cut to
exactly 20 characters. -/
theorem claim4_witness :
    rename_window_name "vim" 20 ({} : Options) = "vim"
    ∧ (rename_window_name "a-very-long-window-label" 20 ({} : Options)).length = 20
    ∧ rename_window_name "a-very-long-window-label" 20 ({} : Options)
      = String.mk (("a-very-long-window-label" : String).data.take 20) := by
  have h1 := (claim4_truncation "vim" 20 {}).1 (by decide)
  have h2 := (claim4_truncation "a-very-long-window-label" 20 {}).2 (by decide)
  exact ⟨h1.trans (by rfl), h2.1, h2.2.trans (by rfl)⟩

/-- C10: under name_and_icon style with a found icon, the final label is
the first max_name_len characters of the icon-decorated string, so the
length bound covers the glyph and separating space, and the visible name
portion is cut to max_name_len minus the glyph-and-space length. -/
theorem claim10_icon_before_truncation (name : String) (max_name_len : Nat) (options : Options)
    (hstyle : options.icon_style = IconStyle.name_and_icon)
    (hicon : get_program_icon name options ≠ "") :
    rename_window_name name max_name_len options
      = String.mk ((get_program_icon name options ++ " " ++ name).data.take max_name_len)
    ∧ ((get_program_icon name options).length + 1 ≤ max_name_len →
      rename_window_name name max_name_len options
        = get_program_icon name options ++ " "
          ++ String.mk (name.data.take
              (max_name_len - ((get_program_icon name options).length + 1)))) := by
  have happ : apply_icon_if_in_style name options
      = get_program_icon name options ++ " " ++ name := by
    simp only [apply_icon_if_in_style, hstyle]
    simp [hicon]
  constructor
  · show String.mk ((apply_icon_if_in_style name options).data.take max_name_len) = _
    rw [happ]
  · intro h
    show String.mk ((apply_icon_if_in_style name options).data.take max_name_len) = _
    rw [happ]
    show String.mk ((((get_program_icon name options).data ++ [' ']) ++ name.data).take
        max_name_len) = _
    rw [List.take_append_eq_append_take,
      List.take_of_length_le (by simpa using h)]
    refine String.ext ?_
    simp [List.length_append]

/-- C10 witness: the vim glyph is prepended first, then the 4-character
cutoff leaves two characters of the visible name. -/
theorem claim10_witness :
    rename_window_name "vim" 4 { icon_style := IconStyle.name_and_icon }
      = String.mk ((get_program_icon "vim" { icon_style := IconStyle.name_and_icon }
          ++ " " ++ "vim").data.take 4)
    ∧ rename_window_name "vim" 4 { icon_style := IconStyle.name_and_icon }
      = get_program_icon "vim" { icon_style := IconStyle.name_and_icon } ++ " "
        ++ String.mk (("vim" : String).data.take
            (4 - ((get_program_icon "vim" { icon_style := IconStyle.name_and_icon }).length
              + 1))) := by
  have h := claim10_icon_before_truncation "vim" 4 { icon_style := IconStyle.name_and_icon }
    rfl (by decide)
  exact ⟨h.1, h.2 (by decide)⟩

/-- Helper: fix_pane_path only rewrites the pane path and leaves the
window id unchanged. -/
theorem fix_pane_path_window_id (home_dir : String) (p : Pane) (options : Options) :
    (fix_pane_path home_dir p options).info.window_id = p.info.window_id := by
  unfold fix_pane_path
  split <;> rfl

/-- Helper: over a list of panes that all carry a program, the window ids
of the labels emitted by the program loop together with the window ids of
the panes it hands to the directory path are a permutation of the input
window ids — each pane is consumed by exactly one of the two outcomes. -/
theorem processProgramPanes_window_ids (options : Options) :
    ∀ l : List Pane, (∀ p ∈ l, p.program.isSome = true) →
    List.Perm ((processProgramPanes options l).1.map (fun e => e.1)
        ++ (processProgramPanes options l).2.map (fun p => p.info.window_id))
      (l.map (fun p => p.info.window_id)) := by
  intro l
  induction l with
  | nil => intro _; simp [processProgramPanes]
  | cons p rest ih =>
    intro h
    have hrest := ih (fun x hx => h x (List.mem_cons_of_mem _ hx))
    obtain ⟨prog, hprog⟩ :=
      Option.isSome_iff_exists.mp (h p (List.mem_cons_self p rest))
    simp only [processProgramPanes, hprog]
    cases hgd : get_program_if_dir prog options.dir_programs with
    | none =>
      simp only [List.map_cons, List.cons_append]
      exact List.Perm.cons _ hrest
    | some pn =>
      simp only [List.map_cons]
      exact List.perm_middle.trans (List.Perm.cons _ hrest)

/-- C8: after resolution the panes split into the has-program and
needs-path partitions — disjoint, jointly exhaustive — and the label list
produced by the two composer code paths covers the pane list one-to-one
(window ids, as a multiset). -/
theorem claim8_partition (home_dir : String) (panes : List Pane) (options : Options) :
    (∀ p, p ∈ (panes.map (fun q => fix_pane_path home_dir q options)).filter
          (fun q => q.program.isSome) →
        p ∉ (panes.map (fun q => fix_pane_path home_dir q options)).filter
          (fun q => q.program.isNone))
    ∧ List.Perm
        ((panes.map (fun q => fix_pane_path home_dir q options)).filter
            (fun q => q.program.isSome)
          ++ (panes.map (fun q => fix_pane_path home_dir q options)).filter
            (fun q => q.program.isNone))
        (panes.map (fun q => fix_pane_path home_dir q options))
    ∧ List.Perm ((rename_windows_pure home_dir panes options).map (fun e => e.1))
        (panes.map (fun p => p.info.window_id)) := by
  have hperm2 : List.Perm
      ((panes.map (fun q => fix_pane_path home_dir q options)).filter
          (fun q => q.program.isSome)
        ++ (panes.map (fun q => fix_pane_path home_dir q options)).filter
          (fun q => q.program.isNone))
      (panes.map (fun q => fix_pane_path home_dir q options)) := by
    have hfun : (fun (q : Pane) => q.program.isNone) = (fun (q : Pane) => !q.program.isSome) :=
      funext fun q => by cases q.program <;> rfl
    rw [hfun]
    exact List.filter_append_perm _ _
  refine ⟨?_, hperm2, ?_⟩
  · intro p hp hn
    have h1 := (List.mem_filter.mp hp).2
    have h2 := (List.mem_filter.mp hn).2
    cases hpp : p.program with
    | none => rw [hpp] at h1; exact Bool.noConfusion h1
    | some v => rw [hpp] at h2; exact Bool.noConfusion h2
  · have hsome : ∀ p ∈ (panes.map (fun q => fix_pane_path home_dir q options)).filter
        (fun q => q.program.isSome), p.program.isSome = true :=
      fun p hp => (List.mem_filter.mp hp).2
    have hppp := processProgramPanes_window_ids options
      ((panes.map (fun q => fix_pane_path home_dir q options)).filter
        (fun q => q.program.isSome)) hsome
    have hrw : (rename_windows_pure home_dir panes options).map (fun e => e.1)
        = (processProgramPanes options
              ((panes.map (fun q => fix_pane_path home_dir q options)).filter
                (fun q => q.program.isSome))).1.map (fun e => e.1)
          ++ ((panes.map (fun q => fix_pane_path home_dir q options)).filter
                (fun q => q.program.isNone)
              ++ (processProgramPanes options
                  ((panes.map (fun q => fix_pane_path home_dir q options)).filter
                    (fun q => q.program.isSome))).2).map
              (fun p => p.info.window_id) := by
      simp only [rename_windows_pure, get_exclusive_paths]
      rw [List.map_append]
      simp only [List.map_map]
      rfl
    rw [hrw, List.map_append]
    refine List.Perm.trans (List.Perm.append_left _ List.perm_append_comm) ?_
    rw [← List.append_assoc]
    refine List.Perm.trans (List.Perm.append hppp (List.Perm.refl _)) ?_
    rw [← List.map_append]
    refine List.Perm.trans (List.Perm.map _ hperm2) ?_
    have hlast : (panes.map (fun q => fix_pane_path home_dir q options)).map
        (fun p => p.info.window_id) = panes.map (fun p => p.info.window_id) := by
      rw [List.map_map]
      exact List.map_congr_left (fun p _ => fix_pane_path_window_id home_dir p options)
    rw [hlast]

/-- C8 witness: a concrete mixed pane list — one pane with a program, one
dir-program pane, one pane without a program. -/
theorem claim8_witness :
    ((([Pane.mk (PaneInfo.mk "@1" (some 2) "/a") (some "cat x"),
        Pane.mk (PaneInfo.mk "@2" (some 3) "/b") (some "vim x"),
        Pane.mk (PaneInfo.mk "@3" (some 4) "/c") none].map
          (fun q => fix_pane_path "/home/u" q {})).filter
          (fun q => q.program.isSome))
      ++ (([Pane.mk (PaneInfo.mk "@1" (some 2) "/a") (some "cat x"),
        Pane.mk (PaneInfo.mk "@2" (some 3) "/b") (some "vim x"),
        Pane.mk (PaneInfo.mk "@3" (some 4) "/c") none].map
          (fun q => fix_pane_path "/home/u" q {})).filter
          (fun q => q.program.isNone))).Perm
      ([Pane.mk (PaneInfo.mk "@1" (some 2) "/a") (some "cat x"),
        Pane.mk (PaneInfo.mk "@2" (some 3) "/b") (some "vim x"),
        Pane.mk (PaneInfo.mk "@3" (some 4) "/c") none].map
          (fun q => fix_pane_path "/home/u" q {}))
    ∧ ((rename_windows_pure "/home/u"
          [Pane.mk (PaneInfo.mk "@1" (some 2) "/a") (some "cat x"),
           Pane.mk (PaneInfo.mk "@2" (some 3) "/b") (some "vim x"),
           Pane.mk (PaneInfo.mk "@3" (some 4) "/c") none] {}).map
        (fun e => e.1)).Perm ["@1", "@2", "@3"] := by
  have h := claim8_partition "/home/u"
    [Pane.mk (PaneInfo.mk "@1" (some 2) "/a") (some "cat x"),
     Pane.mk (PaneInfo.mk "@2" (some 3) "/b") (some "vim x"),
     Pane.mk (PaneInfo.mk "@3" (some 4) "/c") none] {}
  exact ⟨h.2.1, h.2.2⟩

/-- Helper: every segment produced by splitCharAux is free of the
separator, provided the accumulator is. -/
theorem splitCharAux_sep_free (sep : Char) :
    ∀ (cs acc : List Char), sep ∉ acc → ∀ seg ∈ splitCharAux sep cs acc, sep ∉ seg := by
  intro cs
  induction cs with
  | nil =>
    intro acc hacc seg hseg
    simp only [splitCharAux, List.mem_singleton] at hseg
    subst hseg
    simp only [List.mem_reverse]
    exact hacc
  | cons c cs ih =>
    intro acc hacc seg hseg
    simp only [splitCharAux] at hseg
    by_cases hc : c = sep
    · rw [if_pos hc] at hseg
      rcases List.mem_cons.mp hseg with h | h
      · subst h; simp only [List.mem_reverse]; exact hacc
      · exact ih [] (by simp) seg h
    · rw [if_neg hc] at hseg
      refine ih (c :: acc) ?_ seg hseg
      intro hmem
      rcases List.mem_cons.mp hmem with h | h
      · exact hc h.symm
      · exact hacc h

/-- Helper: path segments never contain a slash. -/
theorem pathSegments_sep_free (p : String) : ∀ seg ∈ pathSegments p, '/' ∉ seg := by
  intro seg hseg
  exact splitCharAux_sep_free '/' p.data [] (by simp) seg (List.mem_filter.mp hseg).1

/-- Helper: a list split at a separator that occurs in neither head part
determines both parts. -/
theorem append_sep_inj {sep : Char} :
    ∀ {a₁ a₂ t₁ t₂ : List Char}, sep ∉ a₁ → sep ∉ a₂ →
    a₁ ++ sep :: t₁ = a₂ ++ sep :: t₂ → a₁ = a₂ ∧ t₁ = t₂ := by
  intro a₁
  induction a₁ with
  | nil =>
    intro a₂ t₁ t₂ h1 h2 h
    cases a₂ with
    | nil => simpa using h
    | cons b bs =>
      simp only [List.nil_append, List.cons_append, List.cons.injEq] at h
      exfalso; apply h2; rw [← h.1]; exact List.mem_cons_self _ _
  | cons a as ih =>
    intro a₂ t₁ t₂ h1 h2 h
    cases a₂ with
    | nil =>
      simp only [List.cons_append, List.nil_append, List.cons.injEq] at h
      exfalso; apply h1; rw [h.1]; exact List.mem_cons_self _ _
    | cons b bs =>
      simp only [List.cons_append, List.cons.injEq] at h
      obtain ⟨hab, hrest⟩ := h
      have hih := ih (fun hm => h1 (List.mem_cons_of_mem _ hm))
        (fun hm => h2 (List.mem_cons_of_mem _ hm)) hrest
      exact ⟨by rw [hab, hih.1], hih.2⟩

/-- Helper: dropping all but one element of a nonempty list leaves exactly
its last element. -/
theorem drop_length_sub_one {α : Type} : ∀ (l : List α) (d : α), l ≠ [] →
    l.drop (l.length - 1) = [l.getLastD d] := by
  intro l
  induction l with
  | nil => intro d h; exact absurd rfl h
  | cons a l ih =>
    intro d _
    cases l with
    | nil => rfl
    | cons b t =>
      rw [List.getLastD_cons]
      have hlen : (a :: b :: t).length - 1 = (b :: t).length - 1 + 1 := by
        simp only [List.length_cons]; omega
      rw [hlen, List.drop_succ_cons]
      exact ih a (by simp)

/-- Helper: the one-segment suffix of a path is its leaf segment. -/
theorem suffixK_one (q : String) :
    suffixK q 1 = String.mk ((pathSegments q).getLastD []) := by
  simp only [suffixK]
  cases hq : pathSegments q with
  | nil => rfl
  | cons s rest =>
    rw [drop_length_sub_one (s :: rest) [] (by simp)]
    simp [joinSlash]

/-- Helper: the one- and two-segment suffixes of a path whose segment list
ends in a parent and a leaf. -/
theorem suffixK_two (p : String) (s : List (List Char)) (a leaf : List Char)
    (h : pathSegments p = s ++ [a, leaf]) :
    suffixK p 2 = String.mk (a ++ '/' :: leaf) ∧ suffixK p 1 = String.mk leaf := by
  constructor
  · simp only [suffixK]
    rw [h]
    have hlen : (s ++ [a, leaf]).length - 2 = s.length := by
      simp only [List.length_append, List.length_cons, List.length_nil]; omega
    rw [hlen, List.drop_left]
    rfl
  · simp only [suffixK]
    rw [h]
    have hlen : (s ++ [a, leaf]).length - 1 = (s ++ [a]).length := by
      simp only [List.length_append, List.length_cons, List.length_nil]; omega
    have h2 : s ++ [a, leaf] = (s ++ [a]) ++ [leaf] := by simp
    rw [hlen, h2, List.drop_left]
    rfl

/-- Helper: the display path of a pane depends on the other panes only
through the multiset of their working directories. -/
theorem displaySuffix_perm {paths₁ paths₂ : List String} (h : List.Perm paths₁ paths₂)
    (p : String) : displaySuffix paths₁ p = displaySuffix paths₂ p := by
  have hu : uniqueAt paths₁ p = uniqueAt paths₂ p := by
    funext k
    simp only [uniqueAt]
    rw [h.countP_eq]
  simp only [displaySuffix]
  rw [hu]

/-- Helper: get_exclusive_paths maps permuted pane lists to permuted
results with identical per-pane display paths. -/
theorem get_exclusive_paths_perm {panes₁ panes₂ : List Pane} (h : List.Perm panes₁ panes₂) :
    List.Perm (get_exclusive_paths panes₁) (get_exclusive_paths panes₂) := by
  simp only [get_exclusive_paths]
  have hfun : (fun p : Pane =>
        (p, displaySuffix (panes₁.map (fun q => q.info.pane_current_path))
          p.info.pane_current_path))
      = (fun p : Pane =>
        (p, displaySuffix (panes₂.map (fun q => q.info.pane_current_path))
          p.info.pane_current_path)) := by
    funext p
    rw [displaySuffix_perm (List.Perm.map _ h)]
  rw [hfun]
  exact List.Perm.map _ h

/-- Helper: a pane whose leaf suffix occurs exactly once among the
working directories gets exactly its leaf suffix as display path. -/
theorem displaySuffix_of_unique_leaf (paths : List String) (p : String)
    (hne : pathSegments p ≠ [])
    (hcount : paths.countP (fun q => suffixK q 1 == suffixK p 1) = 1) :
    displaySuffix paths p = suffixK p 1 := by
  have hpos : 0 < (pathSegments p).length := List.length_pos.mpr hne
  have hl : (pathSegments p).length = ((pathSegments p).length - 1) + 1 :=
    (Nat.succ_pred_eq_of_pos hpos).symm
  have hu : uniqueAt paths p 1 = true := by
    simp only [uniqueAt, hcount]
    rfl
  simp only [displaySuffix]
  rw [hl, List.range'_succ, List.find?_cons_of_pos _ (by simp [hu])]

/-- Helper: in a two-pane group sharing a leaf but differing at the parent
segment, the first pane's display path is its parent/leaf suffix. -/
theorem displaySuffix_pair_one (d₁ d₂ : String) (s₁ s₂ : List (List Char))
    (a₁ a₂ leaf : List Char)
    (h₁ : pathSegments d₁ = s₁ ++ [a₁, leaf])
    (h₂ : pathSegments d₂ = s₂ ++ [a₂, leaf])
    (hne : a₁ ≠ a₂) :
    displaySuffix [d₁, d₂] d₁ = String.mk (a₁ ++ '/' :: leaf) := by
  have hslash1 : '/' ∉ a₁ :=
    pathSegments_sep_free d₁ a₁
      (by rw [h₁]; exact List.mem_append_right _ (List.mem_cons_self _ _))
  have hslash2 : '/' ∉ a₂ :=
    pathSegments_sep_free d₂ a₂
      (by rw [h₂]; exact List.mem_append_right _ (List.mem_cons_self _ _))
  obtain ⟨e12, e11⟩ := suffixK_two d₁ s₁ a₁ leaf h₁
  obtain ⟨e22, e21⟩ := suffixK_two d₂ s₂ a₂ leaf h₂
  have hstr : String.mk (a₂ ++ '/' :: leaf) ≠ String.mk (a₁ ++ '/' :: leaf) := by
    intro h
    have hdata : a₂ ++ '/' :: leaf = a₁ ++ '/' :: leaf := congrArg String.data h
    exact hne ((append_sep_inj hslash2 hslash1 hdata).1.symm)
  have hu1 : uniqueAt [d₁, d₂] d₁ 1 = false := by
    simp [uniqueAt, List.countP_cons, e11, e21]
  have hu2 : uniqueAt [d₁, d₂] d₁ 2 = true := by
    simp [uniqueAt, List.countP_cons, e12, e22, beq_iff_eq, hstr]
  have hl : (pathSegments d₁).length = s₁.length + 1 + 1 := by
    rw [h₁]
    simp only [List.length_append, List.length_cons, List.length_nil]
  simp only [displaySuffix]
  rw [hl, List.range'_succ, List.range'_succ,
    List.find?_cons_of_neg _ (by simp [hu1]),
    List.find?_cons_of_pos _ (by simp [hu2])]
  exact e12

/-- C2: the Directory Disambiguator is a pure function of the multiset of
working directories (permuting the pane list permutes the result with the
same per-pane display paths); a pane whose leaf suffix occurs exactly once
among the unresolved panes displays exactly its leaf segment; and a
two-pane group sharing a leaf but differing at the parent displays the two
distinct parent/leaf suffixes. -/
theorem claim2_disambiguator :
    (∀ panes₁ panes₂ : List Pane, List.Perm panes₁ panes₂ →
      List.Perm (get_exclusive_paths panes₁) (get_exclusive_paths panes₂))
    ∧ (∀ q : String, suffixK q 1 = String.mk ((pathSegments q).getLastD []))
    ∧ (∀ (panes : List Pane) (p : Pane), p ∈ panes →
        pathSegments p.info.pane_current_path ≠ [] →
        (panes.map (fun q => q.info.pane_current_path)).countP
          (fun q => suffixK q 1 == suffixK p.info.pane_current_path 1) = 1 →
        displaySuffix (panes.map (fun q => q.info.pane_current_path))
            p.info.pane_current_path
          = suffixK p.info.pane_current_path 1)
    ∧ (∀ (p₁ p₂ : Pane) (s₁ s₂ : List (List Char)) (a₁ a₂ leaf : List Char),
        pathSegments p₁.info.pane_current_path = s₁ ++ [a₁, leaf] →
        pathSegments p₂.info.pane_current_path = s₂ ++ [a₂, leaf] →
        a₁ ≠ a₂ →
        get_exclusive_paths [p₁, p₂]
          = [(p₁, String.mk (a₁ ++ '/' :: leaf)), (p₂, String.mk (a₂ ++ '/' :: leaf))]
        ∧ String.mk (a₁ ++ '/' :: leaf) ≠ String.mk (a₂ ++ '/' :: leaf)) := by
  refine ⟨fun panes₁ panes₂ h => get_exclusive_paths_perm h, suffixK_one, ?_, ?_⟩
  · intro panes p _ hne hcount
    exact displaySuffix_of_unique_leaf _ _ hne hcount
  · intro p₁ p₂ s₁ s₂ a₁ a₂ leaf h₁ h₂ hne
    have hslash1 : '/' ∉ a₁ :=
      pathSegments_sep_free _ a₁
        (by rw [h₁]; exact List.mem_append_right _ (List.mem_cons_self _ _))
    have hslash2 : '/' ∉ a₂ :=
      pathSegments_sep_free _ a₂
        (by rw [h₂]; exact List.mem_append_right _ (List.mem_cons_self _ _))
    have hstr : String.mk (a₁ ++ '/' :: leaf) ≠ String.mk (a₂ ++ '/' :: leaf) := by
      intro h
      have hdata : a₁ ++ '/' :: leaf = a₂ ++ '/' :: leaf := congrArg String.data h
      exact hne (append_sep_inj hslash1 hslash2 hdata).1
    have hd1 := displaySuffix_pair_one
      p₁.info.pane_current_path p₂.info.pane_current_path s₁ s₂ a₁ a₂ leaf h₁ h₂ hne
    have hd2 : displaySuffix
        [p₁.info.pane_current_path, p₂.info.pane_current_path] p₂.info.pane_current_path
        = String.mk (a₂ ++ '/' :: leaf) := by
      have hswap : List.Perm
          [p₁.info.pane_current_path, p₂.info.pane_current_path]
          [p₂.info.pane_current_path, p₁.info.pane_current_path] :=
        List.Perm.swap _ _ _
      rw [displaySuffix_perm hswap]
      exact displaySuffix_pair_one
        p₂.info.pane_current_path p₁.info.pane_current_path s₂ s₁ a₂ a₁ leaf h₂ h₁
        (Ne.symm hne)
    refine ⟨?_, hstr⟩
    simp only [get_exclusive_paths, List.map_cons, List.map_nil]
    rw [hd1, hd2]

/-- C2 witness: the spec's third end-to-end scenario, /home/u/a/x against
/home/u/b/x, and the leaf case /home/u/proj/api against /home/u/proj/web. -/
theorem claim2_witness :
    get_exclusive_paths
      [Pane.mk (PaneInfo.mk "@1" (some 2) "/home/u/a/x") none,
       Pane.mk (PaneInfo.mk "@2" (some 3) "/home/u/b/x") none]
      = [(Pane.mk (PaneInfo.mk "@1" (some 2) "/home/u/a/x") none, "a/x"),
         (Pane.mk (PaneInfo.mk "@2" (some 3) "/home/u/b/x") none, "b/x")]
    ∧ ("a/x" : String) ≠ "b/x"
    ∧ displaySuffix ["/home/u/proj/api", "/home/u/proj/web"] "/home/u/proj/api" = "api" := by
  have h4 := claim2_disambiguator.2.2.2
    (Pane.mk (PaneInfo.mk "@1" (some 2) "/home/u/a/x") none)
    (Pane.mk (PaneInfo.mk "@2" (some 3) "/home/u/b/x") none)
    [['h', 'o', 'm', 'e'], ['u']] [['h', 'o', 'm', 'e'], ['u']]
    ['a'] ['b'] ['x'] (by decide) (by decide) (by decide)
  have h3 := claim2_disambiguator.2.2.1
    [Pane.mk (PaneInfo.mk "@3" (some 4) "/home/u/proj/api") none,
     Pane.mk (PaneInfo.mk "@4" (some 5) "/home/u/proj/web") none]
    (Pane.mk (PaneInfo.mk "@3" (some 4) "/home/u/proj/api") none)
    (by decide) (by decide) (by decide)
  exact ⟨h4.1, h4.2, h3.trans (by decide)⟩
